import Mathlib

/-!
Verification of the convergence / lifecycle engine of the docker_service
module (src/cloud/docker/docker_service.py).

The embedding models `ContainerManager.cmd_up`, `cmd_down`, `cmd_stop`,
`cmd_restart` and `cmd_scale` over an explicit project snapshot and an
abstract runtime client.  Mutating runtime calls are recorded in a trace;
a failing call produces a fatal error message exactly as `self.fail` does
in the source.  The fact-collection loop at the end of `cmd_up` only
performs read-only `inspect` calls and is not part of any mutating trace,
so it is omitted here.

The per-service convergence planner and the option-to-strategy helpers
live in the external docker-compose package (imported by the module, not
part of the repository); those are modelled from the specification and
are marked as such in their doc comments.
-/

/-- A runtime container snapshot: identifier, name, short identifier,
running flag and the configuration fingerprint captured at creation. -/
structure Container where
  id : String
  name : String
  short_id : String
  running : Bool
  fingerprint : String
deriving DecidableEq

/-- A service of the project: its name, the current configuration
fingerprint of its specification, and the existing containers.
`service.containers(stopped=True)` in the source is the whole list;
`service.containers(stopped=False)` is the running sublist. -/
structure Service where
  name : String
  fingerprint : String
  containers : List Container
deriving DecidableEq

/-- The project: name plus its services in declaration order. -/
structure Project where
  name : String
  services : List Service
deriving DecidableEq

/-- All containers of a service (the `stopped=True` query). -/
def Service.allContainers (s : Service) : List Container :=
  s.containers

/-- The running containers of a service (the `stopped=False` query). -/
def Service.runningContainers (s : Service) : List Container :=
  s.containers.filter (fun c => c.running)

/-- First service of the project carrying the given name (live lookup,
standing for a fresh runtime query). -/
def Project.findService (proj : Project) (name : String) : Option Service :=
  proj.services.find? (fun s => s.name == name)

/-- Convergence action of a per-service plan. -/
inductive PlanAction
  | create
  | recreate
  | start
  | noop
deriving DecidableEq

/-- The string key the source uses for a plan action in the diff dict. -/
def PlanAction.key : PlanAction → String
  | PlanAction.create => "create"
  | PlanAction.recreate => "recreate"
  | PlanAction.start => "start"
  | PlanAction.noop => "noop"

/-- A per-service convergence plan: action plus affected containers. -/
structure Plan where
  action : PlanAction
  containers : List Container
deriving DecidableEq

/-- Convergence strategy selected from the up options. -/
inductive Strategy
  | always
  | never
  | changed
deriving DecidableEq

/-- The `up_options` dict built in `cmd_up` (lines 498-511): the recreate
flag inverts into no-recreate, force-recreate clears no-recreate and is
also recorded on its own key. -/
structure UpOptions where
  no_recreate : Bool
  build : Bool
  no_build : Bool
  no_deps : Bool
  force_recreate : Bool
  remove_orphans : Bool
deriving DecidableEq

/-- Desired state of the project (`state` module parameter). -/
inductive DesiredState
  | present
  | absent
deriving DecidableEq

/-- Module parameters together with the two client-derived flags
(`check_mode`, `diff`).  `services = []` models the `None`/empty service
filter and `scale = []` models the absent scale mapping, matching Python
truthiness in the source. -/
structure Params where
  check_mode : Bool
  diff : Bool
  recreate : Bool
  force_recreate : Bool
  build : Bool
  dependencies : Bool
  stopped : Bool
  restarted : Bool
  remove_images : Option String
  remove_volumes : Bool
  remove_orphans : Bool
  services : List String
  scale : List (String × Nat)
  state : DesiredState
deriving DecidableEq

/-- `cmd_up` lines 498-508: `--no-recreate` is `not self.recreate`, then
forced to `False` whenever `force_recreate` is set. -/
def up_options (p : Params) : UpOptions :=
  { no_recreate := if p.force_recreate then false else !p.recreate
    build := p.build
    no_build := false
    no_deps := false
    force_recreate := p.force_recreate
    remove_orphans := p.remove_orphans }

/-- Modelled from the spec: the strategy helper of the external compose
package (`convergence_strategy_from_opts`, imported at line 373, not part
of this repository).  Force-recreate selects `always`, otherwise
no-recreate selects `never`, otherwise drift-based `changed`. -/
def convergence_strategy_from_opts (o : UpOptions) : Strategy :=
  if o.force_recreate then Strategy.always
  else if o.no_recreate then Strategy.never
  else Strategy.changed

/-- Image removal mode passed to the down call. -/
inductive ImageType
  | noRemoval
  | localImages
  | allImages
deriving DecidableEq

/-- Modelled from the spec: the external compose helper
`image_type_from_opt` mapping the `remove_images` choice
(none/local/all) to the image removal mode of the down call. -/
def image_type_from_opt : Option String → ImageType
  | some "all" => ImageType.allImages
  | some "local" => ImageType.localImages
  | _ => ImageType.noRemoval

/-- Build behaviour passed to the up call. -/
inductive BuildAction
  | force
  | skip
  | noBuild
deriving DecidableEq

/-- Modelled from the spec: the external compose helper
`build_action_from_opts` (build semantics are delegated to the runtime
client and not a reconciliation decision). -/
def build_action_from_opts (o : UpOptions) : BuildAction :=
  if o.build then BuildAction.force
  else if o.no_build then BuildAction.skip
  else BuildAction.noBuild

/-- Modelled from the spec: the per-service decision rule of the external
convergence planner (`service.convergence_plan`, spec section 4.2):
zero containers yield `create`; the `always` strategy yields `recreate`
for every existing container; the `changed` strategy yields `recreate`
on fingerprint drift; any stopped container yields `start`; otherwise
`noop`. -/
def Service.convergence_plan (s : Service) (strategy : Strategy) : Plan :=
  if s.containers.isEmpty then ⟨PlanAction.create, []⟩
  else if strategy == Strategy.always then ⟨PlanAction.recreate, s.containers⟩
  else if strategy == Strategy.changed &&
      s.containers.any (fun c => c.fingerprint != s.fingerprint) then
    ⟨PlanAction.recreate, s.containers⟩
  else if s.containers.any (fun c => !c.running) then
    ⟨PlanAction.start, s.containers⟩
  else ⟨PlanAction.noop, s.containers⟩

/-- A mutating call issued to the runtime client. -/
inductive RuntimeCall
  | up (service_names : List String) (start_deps : Bool) (strategy : Strategy)
      (do_build : BuildAction) (remove_orphans : Bool)
  | down (image_type : ImageType) (remove_volumes : Bool) (remove_orphans : Bool)
  | stop (service_names : List String)
  | restart (service_names : List String)
  | scale (service : String) (count : Nat)
deriving DecidableEq

/-- The abstract runtime client: a mutating call either fails with an
exception message or returns the project state after the call. -/
structure Client where
  exec : RuntimeCall → Project → Except String Project

/-- One entry of a diff list: the id/name/short_id dict the source
appends for a container. -/
structure DiffEntry where
  id : String
  name : String
  short_id : String
deriving DecidableEq

/-- The diff entry of a container. -/
def Container.entry (c : Container) : DiffEntry :=
  ⟨c.id, c.name, c.short_id⟩

/-- The per-service diff value: one variant per command shape. -/
inductive ServiceDiff
  | plan (action : String) (entries : List DiffEntry)
  | deleted (names : List String)
  | stop (entries : List DiffEntry)
  | restart (entries : List DiffEntry)
  | scale (delta : Option Int)
deriving DecidableEq

/-- The changed/diff part of a command result (the `ansible_facts` part
is a read-only projection and carries no reconciliation content). -/
structure CmdOut where
  changed : Bool
  diff : List (String × ServiceDiff)
deriving DecidableEq

/-- Result of a command: fatal error message or output, together with
the project state afterwards and the trace of mutating runtime calls
issued (a failed call is in the trace: it was issued). -/
abbrev CmdResult := Except String CmdOut × Project × List RuntimeCall

/-- The service filter of the loops: `if not service_names or
service.name in service_names`. -/
def targeted (service_names : List String) (s : Service) : Bool :=
  service_names.isEmpty || service_names.contains s.name

/-- `dict.update` of the source merges a fragment into the up result by
replacing the `changed` and `diff` keys wholesale. -/
def resultUpdate (_base frag : CmdOut) : CmdOut :=
  { changed := frag.changed, diff := frag.diff }

/-- The changed flag of the planning pass of `cmd_up` (lines 513-517):
true iff some considered service has a plan action other than noop. -/
def upPlanChanged (p : Params) (proj : Project) : Bool :=
  (proj.services.filter (targeted p.services)).any (fun s =>
    (s.convergence_plan (convergence_strategy_from_opts (up_options p))).action
      != PlanAction.noop)

/-- The diff of the planning pass of `cmd_up` (lines 518-526), collected
only when the diff flag is set. -/
def upPlanDiff (p : Params) (proj : Project) : List (String × ServiceDiff) :=
  if p.diff then
    (proj.services.filter (targeted p.services)).map (fun s =>
      let plan := s.convergence_plan (convergence_strategy_from_opts (up_options p))
      (s.name, ServiceDiff.plan plan.action.key (plan.containers.map Container.entry)))
  else []

/-- The changed flag of `cmd_stop`: set once per running container of a
targeted service. -/
def stopChangedPure (service_names : List String) (proj : Project) : Bool :=
  (proj.services.filter (targeted service_names)).any (fun s =>
    s.containers.any (fun c => c.running))

/-- The diff of `cmd_stop`: every targeted service gets a stop list,
populated with its running containers only when the diff flag is set. -/
def stopDiffPure (diffFlag : Bool) (service_names : List String) (proj : Project) :
    List (String × ServiceDiff) :=
  (proj.services.filter (targeted service_names)).map (fun s =>
    (s.name, ServiceDiff.stop
      (if diffFlag then (s.containers.filter (fun c => c.running)).map Container.entry
       else [])))

/-- `cmd_stop` (lines 600-624): compute changed/diff from the running
containers of the targeted services, then issue one stop call when not
in check mode and changed. -/
def cmd_stop (p : Params) (client : Client) (proj : Project)
    (service_names : List String) : CmdResult :=
  let out : CmdOut := ⟨stopChangedPure service_names proj,
                       stopDiffPure p.diff service_names proj⟩
  if !p.check_mode && out.changed then
    match client.exec (RuntimeCall.stop service_names) proj with
    | Except.ok proj1 => (Except.ok out, proj1, [RuntimeCall.stop service_names])
    | Except.error e =>
        (Except.error ("Error stopping services for " ++ proj.name ++ " - " ++ e),
         proj, [RuntimeCall.stop service_names])
  else (Except.ok out, proj, [])

/-- The changed flag of `cmd_restart`: set once per container (running
or not) of a targeted service. -/
def restartChangedPure (service_names : List String) (proj : Project) : Bool :=
  (proj.services.filter (targeted service_names)).any (fun s =>
    !s.containers.isEmpty)

/-- The diff of `cmd_restart`: every targeted service gets a restart
list, populated with all its containers only when the diff flag is set. -/
def restartDiffPure (diffFlag : Bool) (service_names : List String) (proj : Project) :
    List (String × ServiceDiff) :=
  (proj.services.filter (targeted service_names)).map (fun s =>
    (s.name, ServiceDiff.restart
      (if diffFlag then s.containers.map Container.entry else [])))

/-- `cmd_restart` (lines 626-651): same shape as `cmd_stop` but over all
containers. -/
def cmd_restart (p : Params) (client : Client) (proj : Project)
    (service_names : List String) : CmdResult :=
  let out : CmdOut := ⟨restartChangedPure service_names proj,
                       restartDiffPure p.diff service_names proj⟩
  if !p.check_mode && out.changed then
    match client.exec (RuntimeCall.restart service_names) proj with
    | Except.ok proj1 => (Except.ok out, proj1, [RuntimeCall.restart service_names])
    | Except.error e =>
        (Except.error ("Error restarting services for " ++ proj.name ++ " - " ++ e),
         proj, [RuntimeCall.restart service_names])
  else (Except.ok out, proj, [])

/-- The changed flag of `cmd_down`: true iff some service of the project
has at least one container, running or stopped. -/
def downChangedPure (proj : Project) : Bool :=
  proj.services.any (fun s => !s.containers.isEmpty)

/-- The diff of `cmd_down`: when the diff flag is set, every service
lists all its container names as deleted. -/
def downDiffPure (diffFlag : Bool) (proj : Project) : List (String × ServiceDiff) :=
  if diffFlag then
    proj.services.map (fun s =>
      (s.name, ServiceDiff.deleted (s.containers.map (fun c => c.name))))
  else []

/-- `cmd_down` (lines 577-598): compute changed/diff over all services,
then issue one down call when not in check mode and changed. -/
def cmd_down (p : Params) (client : Client) (proj : Project) : CmdResult :=
  let out : CmdOut := ⟨downChangedPure proj, downDiffPure p.diff proj⟩
  if !p.check_mode && out.changed then
    match client.exec (RuntimeCall.down (image_type_from_opt p.remove_images)
        p.remove_volumes p.remove_orphans) proj with
    | Except.ok proj1 =>
        (Except.ok out, proj1,
         [RuntimeCall.down (image_type_from_opt p.remove_images)
            p.remove_volumes p.remove_orphans])
    | Except.error e =>
        (Except.error ("Error bringing " ++ proj.name ++ " down - " ++ e),
         proj,
         [RuntimeCall.down (image_type_from_opt p.remove_images)
            p.remove_volumes p.remove_orphans])
  else (Except.ok out, proj, [])

/-- Dict lookup in the scale mapping. -/
def scaleLookup (scale : List (String × Nat)) (name : String) : Option Nat :=
  (scale.find? (fun kv => kv.1 == name)).map (fun kv => kv.2)

/-- The loop of `cmd_scale` (lines 659-671), one step per service name in
declaration order.  Containers are re-fetched live from the current
project state; a scale call is issued per named service whose current
count differs from the target, and a failing call aborts with the fatal
scaling error naming that service. -/
def scaleLoop (p : Params) (client : Client) (scale : List (String × Nat)) :
    List String → Project →
    Except String Unit × Bool × List (String × ServiceDiff) × Project × List RuntimeCall
  | [], proj => (Except.ok (), false, [], proj, [])
  | name :: rest, proj =>
    match proj.findService name with
    | none => scaleLoop p client scale rest proj
    | some s =>
      match scaleLookup scale s.name with
      | none => scaleLoop p client scale rest proj
      | some n =>
        if s.containers.length != n then
          let entry := (s.name, ServiceDiff.scale
            (if p.diff then some ((n : Int) - (s.containers.length : Int)) else none))
          if !p.check_mode then
            match client.exec (RuntimeCall.scale s.name n) proj with
            | Except.error e =>
                (Except.error ("Error scaling " ++ s.name ++ " - " ++ e), true,
                 [entry], proj, [RuntimeCall.scale s.name n])
            | Except.ok proj1 =>
              match scaleLoop p client scale rest proj1 with
              | (res, _ch, ds, proj2, calls) =>
                  (res, true, entry :: ds, proj2, RuntimeCall.scale s.name n :: calls)
          else
            match scaleLoop p client scale rest proj with
            | (res, _ch, ds, proj2, calls) => (res, true, entry :: ds, proj2, calls)
        else
          match scaleLoop p client scale rest proj with
          | (res, ch, ds, proj2, calls) =>
              (res, ch, (s.name, ServiceDiff.scale none) :: ds, proj2, calls)

/-- `cmd_scale` (lines 653-672). -/
def cmd_scale (p : Params) (client : Client) (proj : Project) : CmdResult :=
  match scaleLoop p client p.scale (proj.services.map (fun s => s.name)) proj with
  | (Except.error e, _, _, proj1, calls) => (Except.error e, proj1, calls)
  | (Except.ok _, ch, ds, proj1, calls) => (Except.ok ⟨ch, ds⟩, proj1, calls)

/-- The changed flag the scale loop computes over a name list against a
fixed project state (no interleaving). -/
def namesChanged (scale : List (String × Nat)) (proj : Project) :
    List String → Bool
  | [] => false
  | name :: rest =>
    match proj.findService name with
    | none => namesChanged scale proj rest
    | some s =>
      match scaleLookup scale s.name with
      | none => namesChanged scale proj rest
      | some n =>
        if s.containers.length != n then true
        else namesChanged scale proj rest

/-- The diff list the scale loop computes over a name list against a
fixed project state (no interleaving). -/
def namesDiff (diffFlag : Bool) (scale : List (String × Nat)) (proj : Project) :
    List String → List (String × ServiceDiff)
  | [] => []
  | name :: rest =>
    match proj.findService name with
    | none => namesDiff diffFlag scale proj rest
    | some s =>
      match scaleLookup scale s.name with
      | none => namesDiff diffFlag scale proj rest
      | some n =>
        if s.containers.length != n then
          (s.name, ServiceDiff.scale
            (if diffFlag then some ((n : Int) - (s.containers.length : Int)) else none))
            :: namesDiff diffFlag scale proj rest
        else (s.name, ServiceDiff.scale none) :: namesDiff diffFlag scale proj rest

/-- The up call `cmd_up` issues (lines 530-536). -/
def upCall (p : Params) : RuntimeCall :=
  RuntimeCall.up p.services p.dependencies
    (convergence_strategy_from_opts (up_options p))
    (build_action_from_opts (up_options p)) p.remove_orphans

/-- Apply a post-up modifier: when its flag is set and the run has not
already failed, run the fragment on the current project state and merge
its output by `resultUpdate`, accumulating its trace. -/
def applyMod (cond : Bool) (r : CmdResult) (frag : Project → CmdResult) : CmdResult :=
  if cond then
    match r with
    | (Except.error e, proj, calls) => (Except.error e, proj, calls)
    | (Except.ok out, proj, calls) =>
      match frag proj with
      | (Except.error e, proj2, calls2) => (Except.error e, proj2, calls ++ calls2)
      | (Except.ok f, proj2, calls2) =>
          (Except.ok (resultUpdate out f), proj2, calls ++ calls2)
  else r

/-- `cmd_up` (lines 491-575): plan changed/diff per considered service,
issue the up call when not in check mode and changed, then apply the
stopped, restarted and scale modifiers in that order, each overwriting
the changed/diff keys of the result. -/
def cmd_up (p : Params) (client : Client) (proj : Project) : CmdResult :=
  let out0 : CmdOut := ⟨upPlanChanged p proj, upPlanDiff p proj⟩
  let base : CmdResult :=
    if !p.check_mode && out0.changed then
      match client.exec (upCall p) proj with
      | Except.ok proj1 => (Except.ok out0, proj1, [upCall p])
      | Except.error e =>
          (Except.error ("Error bring " ++ proj.name ++ " up - " ++ e), proj, [upCall p])
    else (Except.ok out0, proj, [])
  let r1 := applyMod p.stopped base (fun pr => cmd_stop p client pr p.services)
  let r2 := applyMod p.restarted r1 (fun pr => cmd_restart p client pr p.services)
  applyMod (!p.scale.isEmpty) r2 (fun pr => cmd_scale p client pr)

/-- `exec_module` (lines 465-480): dispatch on the desired state. -/
def exec_module (p : Params) (client : Client) (proj : Project) : CmdResult :=
  match p.state with
  | DesiredState.present => cmd_up p client proj
  | DesiredState.absent => cmd_down p client proj

/-- Whether the first character list occurs contiguously in the second. -/
def isSubChars : List Char → List Char → Bool
  | needle, [] => needle.isEmpty
  | needle, c :: rest => needle.isPrefixOf (c :: rest) || isSubChars needle rest

/-- Substring test, used to state what an error message does or does not
name. -/
def substr (needle hay : String) : Bool :=
  isSubChars needle.data hay.data

/-- The other services are untouched by a scale call: the runtime contract
of `service.scale` (spec section 4.4), stated about the abstract client. -/
def scalePreservesOthers (client : Client) : Prop :=
  ∀ name n proj proj2, client.exec (RuntimeCall.scale name n) proj = Except.ok proj2 →
    ∀ m, m ≠ name → proj2.findService m = proj.findService m

/-- The changed/diff keys the check-mode `cmd_up` ends with, after the
modifier fragments overwrote the planning values in order. -/
def upCheckOut (p : Params) (proj : Project) : CmdOut :=
  let o0 : CmdOut := ⟨upPlanChanged p proj, upPlanDiff p proj⟩
  let o1 := if p.stopped then
      (⟨stopChangedPure p.services proj, stopDiffPure p.diff p.services proj⟩ : CmdOut)
    else o0
  let o2 := if p.restarted then
      (⟨restartChangedPure p.services proj, restartDiffPure p.diff p.services proj⟩ : CmdOut)
    else o1
  if !p.scale.isEmpty then
      (⟨namesChanged p.scale proj (proj.services.map (fun s => s.name)),
        namesDiff p.diff p.scale proj (proj.services.map (fun s => s.name))⟩ : CmdOut)
  else o2

/- Concrete instances used by the witnesses. -/

/-- A running db container matching its spec fingerprint. -/
def cDb : Container := ⟨"22", "flask_db_1", "2", true, "fpDb"⟩

/-- A running web container matching its spec fingerprint. -/
def cWeb : Container := ⟨"11", "flask_web_1", "1", true, "fpWeb"⟩

/-- The db service, converged. -/
def svcDb : Service := ⟨"db", "fpDb", [cDb]⟩

/-- The web service, converged. -/
def svcWeb : Service := ⟨"web", "fpWeb", [cWeb]⟩

/-- A fully converged two-service project. -/
def projConv : Project := ⟨"flask", [svcDb, svcWeb]⟩

/-- The same project with no containers at all. -/
def projEmpty : Project := ⟨"flask", [⟨"db", "fpDb", []⟩, ⟨"web", "fpWeb", []⟩]⟩

/-- A one-service project with no containers. -/
def projWebNone : Project := ⟨"flask", [⟨"web", "fpWeb", []⟩]⟩

/-- Default module parameters (execute mode, diff requested). -/
def pBase : Params :=
  { check_mode := false, diff := true, recreate := true, force_recreate := false,
    build := true, dependencies := true, stopped := false, restarted := false,
    remove_images := none, remove_volumes := false, remove_orphans := false,
    services := [], scale := [], state := DesiredState.present }

/-- A client whose calls all succeed and leave the state unchanged. -/
def clientOk : Client := ⟨fun _ proj => Except.ok proj⟩

/-- A client whose calls all fail. -/
def clientFailAll : Client := ⟨fun _ _ => Except.error "boom"⟩

/- Helper lemmas. -/

theorem resultUpdate_eq (b f : CmdOut) : resultUpdate b f = f := rfl

theorem cmd_stop_check (p : Params) (client : Client) (proj : Project)
    (names : List String) (hc : p.check_mode = true) :
    cmd_stop p client proj names =
      (Except.ok ⟨stopChangedPure names proj, stopDiffPure p.diff names proj⟩, proj, []) := by
  simp [cmd_stop, hc]

theorem cmd_restart_check (p : Params) (client : Client) (proj : Project)
    (names : List String) (hc : p.check_mode = true) :
    cmd_restart p client proj names =
      (Except.ok ⟨restartChangedPure names proj, restartDiffPure p.diff names proj⟩, proj, []) := by
  simp [cmd_restart, hc]

theorem cmd_down_check (p : Params) (client : Client) (proj : Project)
    (hc : p.check_mode = true) :
    cmd_down p client proj =
      (Except.ok ⟨downChangedPure proj, downDiffPure p.diff proj⟩, proj, []) := by
  simp [cmd_down, hc]

theorem scaleLoop_check (p : Params) (client : Client) (scale : List (String × Nat))
    (hc : p.check_mode = true) :
    ∀ (names : List String) (proj : Project),
      scaleLoop p client scale names proj =
        (Except.ok (), namesChanged scale proj names, namesDiff p.diff scale proj names,
         proj, []) := by
  intro names
  induction names with
  | nil => intro proj; simp [scaleLoop, namesChanged, namesDiff]
  | cons name rest ih =>
    intro proj
    simp only [scaleLoop, namesChanged, namesDiff]
    cases hfind : proj.findService name with
    | none => simp [ih]
    | some s =>
      cases hlook : scaleLookup scale s.name with
      | none => simp [hlook, ih]
      | some n =>
        by_cases hlen : s.containers.length = n
        · simp [hlook, hlen, ih]
        · simp [hlook, hlen, hc, ih]

theorem cmd_scale_check (p : Params) (client : Client) (proj : Project)
    (hc : p.check_mode = true) :
    cmd_scale p client proj =
      (Except.ok ⟨namesChanged p.scale proj (proj.services.map (fun s => s.name)),
                  namesDiff p.diff p.scale proj (proj.services.map (fun s => s.name))⟩,
       proj, []) := by
  simp [cmd_scale, scaleLoop_check p client p.scale hc]

theorem cmd_up_check (p : Params) (client : Client) (proj : Project)
    (hc : p.check_mode = true) :
    cmd_up p client proj = (Except.ok (upCheckOut p proj), proj, []) := by
  simp only [cmd_up, upCheckOut, hc, Bool.not_true, Bool.false_and, if_false]
  by_cases hs : p.stopped <;>
    by_cases hr : p.restarted <;>
      by_cases hsc : p.scale.isEmpty <;>
        simp [applyMod, hs, hr, hsc, resultUpdate_eq,
              cmd_stop_check p client _ _ hc, cmd_restart_check p client _ _ hc,
              cmd_scale_check p client _ hc]

theorem cmd_stop_ok_out (p : Params) (client : Client) (proj : Project)
    (names : List String) :
    ∀ out proj2 calls, cmd_stop p client proj names = (Except.ok out, proj2, calls) →
      out = ⟨stopChangedPure names proj, stopDiffPure p.diff names proj⟩ := by
  intro out proj2 calls h
  simp only [cmd_stop] at h
  split at h
  · split at h
    · have h1 := congrArg Prod.fst h
      simp at h1
      exact h1.symm
    · have h1 := congrArg Prod.fst h
      simp at h1
  · have h1 := congrArg Prod.fst h
    simp at h1
    exact h1.symm

theorem cmd_restart_ok_out (p : Params) (client : Client) (proj : Project)
    (names : List String) :
    ∀ out proj2 calls, cmd_restart p client proj names = (Except.ok out, proj2, calls) →
      out = ⟨restartChangedPure names proj, restartDiffPure p.diff names proj⟩ := by
  intro out proj2 calls h
  simp only [cmd_restart] at h
  split at h
  · split at h
    · have h1 := congrArg Prod.fst h
      simp at h1
      exact h1.symm
    · have h1 := congrArg Prod.fst h
      simp at h1
  · have h1 := congrArg Prod.fst h
    simp at h1
    exact h1.symm

theorem cmd_down_ok_out (p : Params) (client : Client) (proj : Project) :
    ∀ out proj2 calls, cmd_down p client proj = (Except.ok out, proj2, calls) →
      out = ⟨downChangedPure proj, downDiffPure p.diff proj⟩ := by
  intro out proj2 calls h
  simp only [cmd_down] at h
  split at h
  · split at h
    · have h1 := congrArg Prod.fst h
      simp at h1
      exact h1.symm
    · have h1 := congrArg Prod.fst h
      simp at h1
  · have h1 := congrArg Prod.fst h
    simp at h1
    exact h1.symm

theorem cmd_up_base_ok (p : Params) (client : Client) (proj : Project)
    (hstop : p.stopped = false) (hrest : p.restarted = false) (hscale : p.scale = []) :
    ∀ out proj2 calls, cmd_up p client proj = (Except.ok out, proj2, calls) →
      out = ⟨upPlanChanged p proj, upPlanDiff p proj⟩ := by
  intro out proj2 calls h
  simp only [cmd_up, applyMod, hstop, hrest, hscale, List.isEmpty_nil, Bool.not_true,
    Bool.false_eq_true, if_false] at h
  split at h
  · split at h
    · have h1 := congrArg Prod.fst h
      simp at h1
      exact h1.symm
    · have h1 := congrArg Prod.fst h
      simp at h1
  · have h1 := congrArg Prod.fst h
    simp at h1
    exact h1.symm

theorem cmd_up_base_of_not_changed (p : Params) (client : Client) (proj : Project)
    (hstop : p.stopped = false) (hrest : p.restarted = false) (hscale : p.scale = [])
    (hch : upPlanChanged p proj = false) :
    cmd_up p client proj =
      (Except.ok ⟨upPlanChanged p proj, upPlanDiff p proj⟩, proj, []) := by
  simp [cmd_up, applyMod, hstop, hrest, hscale, hch]

theorem strategy_not_always_of_not_force (p : Params) (hf : p.force_recreate = false) :
    convergence_strategy_from_opts (up_options p) ≠ Strategy.always := by
  simp only [convergence_strategy_from_opts, up_options, hf, if_false]
  split
  · simp_all
  · split <;> simp_all

theorem plan_noop_of_converged (s : Service) (strat : Strategy)
    (hne : s.containers ≠ [])
    (hok : ∀ c ∈ s.containers, c.fingerprint = s.fingerprint ∧ c.running = true)
    (hstrat : strat ≠ Strategy.always) :
    (s.convergence_plan strat).action = PlanAction.noop := by
  have h1 : s.containers.isEmpty = false := by
    cases hq : s.containers.isEmpty
    · rfl
    · exact absurd (by simpa using hq) hne
  have h2 : (strat == Strategy.always) = false := by
    simp [hstrat]
  have h3 : s.containers.any (fun c => c.fingerprint != s.fingerprint) = false := by
    rw [List.any_eq_false]
    intro c hc
    simp [(hok c hc).1]
  have h4 : s.containers.any (fun c => !c.running) = false := by
    rw [List.any_eq_false]
    intro c hc
    simp [(hok c hc).2]
  simp [Service.convergence_plan, h1, h2, h3, h4]

theorem upPlanChanged_iff (p : Params) (proj : Project) :
    upPlanChanged p proj = true ↔
      ∃ s, s ∈ proj.services ∧ targeted p.services s = true ∧
        (s.convergence_plan
            (convergence_strategy_from_opts (up_options p))).action ≠ PlanAction.noop := by
  simp [upPlanChanged, List.any_eq_true, List.mem_filter, and_assoc]

theorem upPlanChanged_of_converged (p : Params) (proj : Project)
    (hf : p.force_recreate = false)
    (hconv : ∀ s ∈ proj.services, targeted p.services s = true →
       s.containers ≠ [] ∧ ∀ c ∈ s.containers,
         c.fingerprint = s.fingerprint ∧ c.running = true) :
    upPlanChanged p proj = false := by
  rw [upPlanChanged, List.any_eq_false]
  intro s hs
  rw [List.mem_filter] at hs
  obtain ⟨hmem, htgt⟩ := hs
  obtain ⟨hne, hok⟩ := hconv s hmem htgt
  have hnoop := plan_noop_of_converged s _ hne hok
    (strategy_not_always_of_not_force p hf)
  simp [hnoop]

/-- C1: the up convergence pass reports changed iff some considered
service has a plan action other than noop, and on a converged project
(all considered services have containers, all matching and running,
without force-recreate) the pass is a no-op: changed is false and no
runtime call is issued. -/
theorem up_changed_iff_plan_action (p : Params) (client : Client) (proj : Project)
    (hstop : p.stopped = false) (hrest : p.restarted = false) (hscale : p.scale = []) :
    (∀ out proj2 calls, cmd_up p client proj = (Except.ok out, proj2, calls) →
      (out.changed = true ↔ ∃ s, s ∈ proj.services ∧ targeted p.services s = true ∧
        (s.convergence_plan
            (convergence_strategy_from_opts (up_options p))).action ≠ PlanAction.noop))
    ∧ (p.force_recreate = false →
       (∀ s ∈ proj.services, targeted p.services s = true →
          s.containers ≠ [] ∧ ∀ c ∈ s.containers,
            c.fingerprint = s.fingerprint ∧ c.running = true) →
       cmd_up p client proj = (Except.ok ⟨false, upPlanDiff p proj⟩, proj, [])) := by
  constructor
  · intro out proj2 calls h
    have hout := cmd_up_base_ok p client proj hstop hrest hscale out proj2 calls h
    rw [hout]
    exact upPlanChanged_iff p proj
  · intro hf hconv
    have hch := upPlanChanged_of_converged p proj hf hconv
    have heq := cmd_up_base_of_not_changed p client proj hstop hrest hscale hch
    rw [heq, hch]

theorem up_changed_iff_plan_action_witness :
    cmd_up pBase clientOk projConv =
      (Except.ok ⟨false, upPlanDiff pBase projConv⟩, projConv, []) :=
  (up_changed_iff_plan_action pBase clientOk projConv rfl rfl rfl).2 rfl (by decide)

/-- C2: in check mode every command returns successfully with an empty
runtime-call trace and an unchanged project (so no mutating call is ever
issued and no convergence failure can be raised), and the changed/diff
values of each command are exactly the pure pre-call values, which any
execute-mode run computes identically before touching the runtime. -/
theorem dry_run_purity (p : Params) (client : Client) (proj : Project)
    (names : List String) (hc : p.check_mode = true) :
    cmd_up p client proj = (Except.ok (upCheckOut p proj), proj, [])
    ∧ cmd_down p client proj =
        (Except.ok ⟨downChangedPure proj, downDiffPure p.diff proj⟩, proj, [])
    ∧ cmd_stop p client proj names =
        (Except.ok ⟨stopChangedPure names proj, stopDiffPure p.diff names proj⟩, proj, [])
    ∧ cmd_restart p client proj names =
        (Except.ok ⟨restartChangedPure names proj, restartDiffPure p.diff names proj⟩,
         proj, [])
    ∧ cmd_scale p client proj =
        (Except.ok ⟨namesChanged p.scale proj (proj.services.map (fun s => s.name)),
                    namesDiff p.diff p.scale proj (proj.services.map (fun s => s.name))⟩,
         proj, [])
    ∧ (∀ q : Params, ∀ out proj2 calls,
         cmd_stop q client proj names = (Except.ok out, proj2, calls) →
         out = ⟨stopChangedPure names proj, stopDiffPure q.diff names proj⟩)
    ∧ (∀ q : Params, ∀ out proj2 calls,
         cmd_restart q client proj names = (Except.ok out, proj2, calls) →
         out = ⟨restartChangedPure names proj, restartDiffPure q.diff names proj⟩)
    ∧ (∀ q : Params, ∀ out proj2 calls,
         cmd_down q client proj = (Except.ok out, proj2, calls) →
         out = ⟨downChangedPure proj, downDiffPure q.diff proj⟩)
    ∧ (∀ q : Params, q.stopped = false → q.restarted = false → q.scale = [] →
         ∀ out proj2 calls, cmd_up q client proj = (Except.ok out, proj2, calls) →
         out = ⟨upPlanChanged q proj, upPlanDiff q proj⟩) :=
  ⟨cmd_up_check p client proj hc,
   cmd_down_check p client proj hc,
   cmd_stop_check p client proj names hc,
   cmd_restart_check p client proj names hc,
   cmd_scale_check p client proj hc,
   fun q => cmd_stop_ok_out q client proj names,
   fun q => cmd_restart_ok_out q client proj names,
   fun q => cmd_down_ok_out q client proj,
   fun q h1 h2 h3 => cmd_up_base_ok q client proj h1 h2 h3⟩

/-- Check-mode parameters exercising all three post-up modifiers. -/
def pCheckAll : Params :=
  { pBase with check_mode := true, stopped := true, restarted := true,
               scale := [("web", 2)] }

theorem dry_run_purity_witness :
    cmd_up pCheckAll clientFailAll projConv =
      (Except.ok (upCheckOut pCheckAll projConv), projConv, []) :=
  (dry_run_purity pCheckAll clientFailAll projConv [] rfl).1

/-- C3: with force-recreate set, the no-recreate option is cleared (force
takes strict precedence over the allow-recreate setting), the selected
strategy is `always`, and every service with at least one existing
container is planned `recreate` regardless of fingerprint match. -/
theorem force_recreate_dominance (p : Params) (s : Service)
    (hf : p.force_recreate = true) (hne : s.containers ≠ []) :
    (up_options p).no_recreate = false
    ∧ convergence_strategy_from_opts (up_options p) = Strategy.always
    ∧ (s.convergence_plan (convergence_strategy_from_opts (up_options p))).action =
        PlanAction.recreate := by
  have h1 : (up_options p).no_recreate = false := by
    simp [up_options, hf]
  have h2 : convergence_strategy_from_opts (up_options p) = Strategy.always := by
    simp [convergence_strategy_from_opts, up_options, hf]
  have h3 : s.containers.isEmpty = false := by
    cases hq : s.containers.isEmpty
    · rfl
    · exact absurd (by simpa using hq) hne
  refine ⟨h1, h2, ?_⟩
  rw [h2]
  simp [Service.convergence_plan, h3]

/-- Parameters with force-recreate set while the user also disabled
drift-based recreation. -/
def pForce : Params := { pBase with force_recreate := true, recreate := false }

theorem force_recreate_dominance_witness :
    (up_options pForce).no_recreate = false
    ∧ convergence_strategy_from_opts (up_options pForce) = Strategy.always
    ∧ (svcWeb.convergence_plan
          (convergence_strategy_from_opts (up_options pForce))).action =
        PlanAction.recreate :=
  force_recreate_dominance pForce svcWeb rfl (by decide)

theorem stopChangedPure_iff (names : List String) (proj : Project) :
    stopChangedPure names proj = true ↔
      ∃ s, s ∈ proj.services ∧ targeted names s = true ∧
        ∃ c ∈ s.containers, c.running = true := by
  simp [stopChangedPure, List.any_eq_true, List.mem_filter, and_assoc]

theorem stopDiffPure_running_only (dflag : Bool) (names : List String) (proj : Project) :
    ∀ sn entries, (sn, ServiceDiff.stop entries) ∈ stopDiffPure dflag names proj →
      ∀ e ∈ entries, ∃ s, s ∈ proj.services ∧ s.name = sn ∧
        ∃ c ∈ s.containers, c.running = true ∧ c.entry = e := by
  intro sn entries hmem e he
  cases dflag with
  | false =>
    simp only [stopDiffPure, Bool.false_eq_true, if_false, List.mem_map,
      List.mem_filter] at hmem
    obtain ⟨s, ⟨hs, htgt⟩, heq⟩ := hmem
    have h2 := congrArg Prod.snd heq
    simp only [ServiceDiff.stop.injEq] at h2
    rw [← h2] at he
    simp at he
  | true =>
    simp only [stopDiffPure, if_true, List.mem_map, List.mem_filter] at hmem
    obtain ⟨s, ⟨hs, htgt⟩, heq⟩ := hmem
    have h1 : s.name = sn := congrArg Prod.fst heq
    have h2 := congrArg Prod.snd heq
    simp only [ServiceDiff.stop.injEq] at h2
    rw [← h2] at he
    simp only [List.mem_map, List.mem_filter] at he
    obtain ⟨c, ⟨hc, hrun⟩, hce⟩ := he
    exact ⟨s, hs, h1, c, hc, hrun, hce⟩

/-- C4: the stop operation is changed iff some targeted service has a
running container; every diff entry comes from a running container of a
targeted service; and the stop call is issued exactly when not in check
mode and changed. -/
theorem cmd_stop_spec (p : Params) (client : Client) (proj : Project)
    (names : List String) :
    ∀ res proj2 calls, cmd_stop p client proj names = (res, proj2, calls) →
      ((calls = [] ∨ calls = [RuntimeCall.stop names])
       ∧ (calls = [RuntimeCall.stop names] ↔
            p.check_mode = false ∧ stopChangedPure names proj = true)
       ∧ (∀ out, res = Except.ok out →
           ((out.changed = true ↔
               ∃ s, s ∈ proj.services ∧ targeted names s = true ∧
                 ∃ c ∈ s.containers, c.running = true)
            ∧ out.diff = stopDiffPure p.diff names proj
            ∧ ∀ sn entries, (sn, ServiceDiff.stop entries) ∈ out.diff →
                ∀ e ∈ entries, ∃ s, s ∈ proj.services ∧ s.name = sn ∧
                  ∃ c ∈ s.containers, c.running = true ∧ c.entry = e))) := by
  intro res proj2 calls h
  have hok : ∀ out, res = Except.ok out →
      out = ⟨stopChangedPure names proj, stopDiffPure p.diff names proj⟩ := by
    intro out hres
    rw [hres] at h
    exact cmd_stop_ok_out p client proj names out proj2 calls h
  have hout : ∀ out, res = Except.ok out →
      ((out.changed = true ↔
          ∃ s, s ∈ proj.services ∧ targeted names s = true ∧
            ∃ c ∈ s.containers, c.running = true)
       ∧ out.diff = stopDiffPure p.diff names proj
       ∧ ∀ sn entries, (sn, ServiceDiff.stop entries) ∈ out.diff →
           ∀ e ∈ entries, ∃ s, s ∈ proj.services ∧ s.name = sn ∧
             ∃ c ∈ s.containers, c.running = true ∧ c.entry = e) := by
    intro out hres
    rw [hok out hres]
    refine ⟨stopChangedPure_iff names proj, rfl, ?_⟩
    exact stopDiffPure_running_only p.diff names proj
  simp only [cmd_stop] at h
  split at h
  case isTrue hcond =>
    rw [Bool.and_eq_true, Bool.not_eq_true'] at hcond
    split at h
    · injection h with hres hrest
      injection hrest with hproj hcalls
      subst hcalls
      exact ⟨Or.inr rfl, by simp [hcond.1, hcond.2], hout⟩
    · injection h with hres hrest
      injection hrest with hproj hcalls
      subst hcalls
      exact ⟨Or.inr rfl, by simp [hcond.1, hcond.2], hout⟩
  case isFalse hcond =>
    rw [Bool.and_eq_true, Bool.not_eq_true'] at hcond
    injection h with hres hrest
    injection hrest with hproj hcalls
    subst hcalls
    exact ⟨Or.inl rfl, by simp [hcond], hout⟩

theorem cmd_stop_spec_witness :
    [RuntimeCall.stop ([] : List String)] = [RuntimeCall.stop ([] : List String)] ↔
      pBase.check_mode = false ∧ stopChangedPure [] projConv = true :=
  (cmd_stop_spec pBase clientOk projConv []
    (Except.ok ⟨true, stopDiffPure pBase.diff [] projConv⟩) projConv
    [RuntimeCall.stop []] rfl).2.1

theorem restartChangedPure_iff (names : List String) (proj : Project) :
    restartChangedPure names proj = true ↔
      ∃ s, s ∈ proj.services ∧ targeted names s = true ∧ s.containers ≠ [] := by
  simp only [restartChangedPure, List.any_eq_true, List.mem_filter, and_assoc,
    Bool.not_eq_true']
  constructor
  · rintro ⟨s, hs, ht, hne⟩
    refine ⟨s, hs, ht, ?_⟩
    intro hnil
    rw [hnil] at hne
    simp at hne
  · rintro ⟨s, hs, ht, hne⟩
    refine ⟨s, hs, ht, ?_⟩
    cases hq : s.containers.isEmpty
    · rfl
    · exact absurd (by simpa using hq) hne

theorem restartDiffPure_mem (names : List String) (proj : Project) (s : Service)
    (hs : s ∈ proj.services) (ht : targeted names s = true) :
    (s.name, ServiceDiff.restart (s.containers.map Container.entry)) ∈
      restartDiffPure true names proj := by
  simp only [restartDiffPure, if_true]
  exact List.mem_map_of_mem _ (List.mem_filter.mpr ⟨hs, ht⟩)

theorem cmd_up_restart_ok (p : Params) (client : Client) (proj : Project)
    (hstop : p.stopped = false) (hrest : p.restarted = true) (hscale : p.scale = [])
    (hch : upPlanChanged p proj = false) :
    ∀ out proj2 calls, cmd_up p client proj = (Except.ok out, proj2, calls) →
      out = ⟨restartChangedPure p.services proj,
             restartDiffPure p.diff p.services proj⟩ := by
  intro out proj2 calls h
  simp only [cmd_up, applyMod, hstop, hrest, hscale, hch, List.isEmpty_nil,
    Bool.not_true, Bool.and_false, Bool.false_eq_true, if_false, if_true] at h
  rcases hr : cmd_restart p client proj p.services with ⟨res1, proj1, calls1⟩
  rw [hr] at h
  cases res1 with
  | error e =>
    have h1 := congrArg Prod.fst h
    simp at h1
  | ok f =>
    have h1 := congrArg Prod.fst h
    simp only [resultUpdate_eq] at h1
    simp at h1
    rw [← h1]
    exact cmd_restart_ok_out p client proj p.services f proj1 calls1 hr

/-- C5: the restart operation considers all containers of the targeted
services (running or not) and is changed iff at least one such container
exists; with the restarted modifier on an already converged project, the
overall up result is changed with every container of the targeted
services in the restart diff. -/
theorem cmd_restart_spec (p : Params) (client : Client) (proj : Project)
    (names : List String) :
    (∀ out proj2 calls, cmd_restart p client proj names = (Except.ok out, proj2, calls) →
      (out.changed = true ↔
        ∃ s, s ∈ proj.services ∧ targeted names s = true ∧ s.containers ≠ []))
    ∧ (p.stopped = false → p.restarted = true → p.scale = [] →
       p.force_recreate = false → p.diff = true →
       (∀ s ∈ proj.services, targeted p.services s = true →
          s.containers ≠ [] ∧ ∀ c ∈ s.containers,
            c.fingerprint = s.fingerprint ∧ c.running = true) →
       (∃ s, s ∈ proj.services ∧ targeted p.services s = true) →
       ∀ out proj2 calls, cmd_up p client proj = (Except.ok out, proj2, calls) →
         out.changed = true
         ∧ ∀ s ∈ proj.services, targeted p.services s = true →
             (s.name, ServiceDiff.restart (s.containers.map Container.entry)) ∈
               out.diff) := by
  constructor
  · intro out proj2 calls h
    have hout := cmd_restart_ok_out p client proj names out proj2 calls h
    rw [hout]
    exact restartChangedPure_iff names proj
  · intro hstop hrest hscale hf hdiff hconv hex
    intro out proj2 calls h
    have hch := upPlanChanged_of_converged p proj hf hconv
    have hout := cmd_up_restart_ok p client proj hstop hrest hscale hch
      out proj2 calls h
    rw [hout]
    constructor
    · rw [restartChangedPure_iff]
      obtain ⟨s, hs, ht⟩ := hex
      exact ⟨s, hs, ht, (hconv s hs ht).1⟩
    · intro s hs ht
      rw [hdiff]
      exact restartDiffPure_mem p.services proj s hs ht

/-- Parameters with only the restarted modifier set. -/
def pRest : Params := { pBase with restarted := true }

theorem cmd_restart_spec_witness :
    (⟨true, restartDiffPure true ([] : List String) projConv⟩ : CmdOut).changed = true
    ∧ ∀ s ∈ projConv.services, targeted ([] : List String) s = true →
        (s.name, ServiceDiff.restart (s.containers.map Container.entry)) ∈
          (⟨true, restartDiffPure true ([] : List String) projConv⟩ : CmdOut).diff :=
  (cmd_restart_spec pRest clientOk projConv []).2 rfl rfl rfl rfl rfl (by decide)
    ⟨svcDb, by decide, rfl⟩
    ⟨true, restartDiffPure true [] projConv⟩ projConv [RuntimeCall.restart []] rfl

theorem downChangedPure_iff (proj : Project) :
    downChangedPure proj = true ↔ ∃ s, s ∈ proj.services ∧ s.containers ≠ [] := by
  simp only [downChangedPure, List.any_eq_true, Bool.not_eq_true']
  constructor
  · rintro ⟨s, hs, hne⟩
    refine ⟨s, hs, ?_⟩
    intro hnil
    rw [hnil] at hne
    simp at hne
  · rintro ⟨s, hs, hne⟩
    refine ⟨s, hs, ?_⟩
    cases hq : s.containers.isEmpty
    · rfl
    · exact absurd (by simpa using hq) hne

/-- C6: teardown is changed iff at least one container (running or
stopped) exists across all services; with the diff flag the diff lists
every container of every service as deleted; with zero containers the
result is unchanged and no down call is issued; and a down call is only
ever issued outside check mode when changed. -/
theorem cmd_down_spec (p : Params) (client : Client) (proj : Project) :
    (∀ out proj2 calls, cmd_down p client proj = (Except.ok out, proj2, calls) →
       ((out.changed = true ↔ ∃ s, s ∈ proj.services ∧ s.containers ≠ [])
        ∧ (p.diff = true →
            out.diff = proj.services.map (fun s =>
              (s.name, ServiceDiff.deleted (s.containers.map (fun c => c.name)))))))
    ∧ ((∀ s ∈ proj.services, s.containers = []) →
        cmd_down p client proj =
          (Except.ok ⟨false, downDiffPure p.diff proj⟩, proj, []))
    ∧ (∀ res proj2 calls, cmd_down p client proj = (res, proj2, calls) →
        calls = [] ∨ (p.check_mode = false ∧ downChangedPure proj = true)) := by
  refine ⟨?_, ?_, ?_⟩
  · intro out proj2 calls h
    have hout := cmd_down_ok_out p client proj out proj2 calls h
    rw [hout]
    refine ⟨downChangedPure_iff proj, ?_⟩
    intro hdiff
    simp [downDiffPure, hdiff]
  · intro hempty
    have hch : downChangedPure proj = false := by
      rw [downChangedPure, List.any_eq_false]
      intro s hs
      simp [hempty s hs]
    simp [cmd_down, hch]
  · intro res proj2 calls h
    simp only [cmd_down] at h
    split at h
    case isTrue hcond =>
      rw [Bool.and_eq_true, Bool.not_eq_true'] at hcond
      exact Or.inr hcond
    case isFalse hcond =>
      injection h with hres hrest
      injection hrest with hproj hcalls
      exact Or.inl hcalls.symm

theorem cmd_down_spec_witness :
    cmd_down pBase clientOk projEmpty =
      (Except.ok ⟨false, downDiffPure pBase.diff projEmpty⟩, projEmpty, []) :=
  (cmd_down_spec pBase clientOk projEmpty).2.1 (by decide)

/-- Whether the scale map requires action for a service. -/
def scaleNeeded (scale : List (String × Nat)) (s : Service) : Bool :=
  match scaleLookup scale s.name with
  | some n => s.containers.length != n
  | none => false

theorem scaleNeeded_iff (scale : List (String × Nat)) (s : Service) :
    scaleNeeded scale s = true ↔
      ∃ n, scaleLookup scale s.name = some n ∧ s.containers.length ≠ n := by
  cases h : scaleLookup scale s.name <;> simp [scaleNeeded, h]

theorem find?_self_of_nodup :
    ∀ (l : List Service), (l.map (fun s => s.name)).Nodup →
      ∀ s ∈ l, l.find? (fun t => t.name == s.name) = some s := by
  intro l
  induction l with
  | nil => simp
  | cons a rest ih =>
    intro hnd s hs
    rw [List.map_cons, List.nodup_cons] at hnd
    obtain ⟨hnotin, hndr⟩ := hnd
    rcases List.mem_cons.mp hs with rfl | hmem
    · rw [List.find?_cons_of_pos]
      simp
    · have hne : (a.name == s.name) = false := by
        rw [beq_eq_false_iff_ne]
        intro heq
        exact hnotin (heq ▸ List.mem_map_of_mem _ hmem)
      simp only [List.find?_cons, hne]
      exact ih hndr s hmem

theorem findService_self (proj : Project)
    (hnodup : (proj.services.map (fun s => s.name)).Nodup) :
    ∀ s ∈ proj.services, proj.findService s.name = some s := by
  intro s hs
  exact find?_self_of_nodup proj.services hnodup s hs

theorem scaleLoop_calls (p : Params) (client : Client) (scale : List (String × Nat)) :
    ∀ (names : List String) (proj : Project) res ch ds proj2 calls,
      scaleLoop p client scale names proj = (res, ch, ds, proj2, calls) →
      ∀ c ∈ calls, ∃ nm n, c = RuntimeCall.scale nm n ∧ scaleLookup scale nm = some n := by
  intro names
  induction names with
  | nil =>
    intro proj res ch ds proj2 calls h c hc
    simp only [scaleLoop] at h
    injection h with e1 h2
    injection h2 with e2 h3
    injection h3 with e3 h4
    injection h4 with e4 e5
    rw [← e5] at hc
    simp at hc
  | cons name rest ih =>
    intro proj res ch ds proj2 calls h c hc
    simp only [scaleLoop] at h
    cases hfind : proj.findService name with
    | none =>
      simp only [hfind] at h
      exact ih proj res ch ds proj2 calls h c hc
    | some s =>
      simp only [hfind] at h
      cases hlook : scaleLookup scale s.name with
      | none =>
        simp only [hlook] at h
        exact ih proj res ch ds proj2 calls h c hc
      | some n =>
        simp only [hlook] at h
        by_cases hlen : s.containers.length = n
        · simp only [hlen, bne_self_eq_false, Bool.false_eq_true, if_false] at h
          rcases hrec : scaleLoop p client scale rest proj with
            ⟨res1, ch1, ds1, proj21, calls1⟩
          rw [hrec] at h
          injection h with e1 h2
          injection h2 with e2 h3
          injection h3 with e3 h4
          injection h4 with e4 e5
          rw [← e5] at hc
          exact ih proj res1 ch1 ds1 proj21 calls1 hrec c hc
        · have hbne : (s.containers.length != n) = true := by simp [hlen]
          simp only [hbne, if_true] at h
          cases hcm : p.check_mode with
          | true =>
            simp only [hcm, Bool.not_true, Bool.false_eq_true, if_false] at h
            rcases hrec : scaleLoop p client scale rest proj with
              ⟨res1, ch1, ds1, proj21, calls1⟩
            rw [hrec] at h
            injection h with e1 h2
            injection h2 with e2 h3
            injection h3 with e3 h4
            injection h4 with e4 e5
            rw [← e5] at hc
            exact ih proj res1 ch1 ds1 proj21 calls1 hrec c hc
          | false =>
            simp only [hcm, Bool.not_false, if_true] at h
            cases hexec : client.exec (RuntimeCall.scale s.name n) proj with
            | error e =>
              simp only [hexec] at h
              injection h with e1 h2
              injection h2 with e2 h3
              injection h3 with e3 h4
              injection h4 with e4 e5
              rw [← e5] at hc
              simp only [List.mem_singleton] at hc
              exact ⟨s.name, n, hc, hlook⟩
            | ok proj1 =>
              simp only [hexec] at h
              rcases hrec : scaleLoop p client scale rest proj1 with
                ⟨res1, ch1, ds1, proj21, calls1⟩
              rw [hrec] at h
              injection h with e1 h2
              injection h2 with e2 h3
              injection h3 with e3 h4
              injection h4 with e4 e5
              rw [← e5] at hc
              rcases List.mem_cons.mp hc with rfl | hc2
              · exact ⟨s.name, n, rfl, hlook⟩
              · exact ih proj1 res1 ch1 ds1 proj21 calls1 hrec c hc2

theorem scaleLoop_ok_pure (p : Params) (client : Client) (scale : List (String × Nat))
    (hpres : scalePreservesOthers client) :
    ∀ (names : List String), names.Nodup → ∀ (proj proj0 : Project),
      (∀ m ∈ names, proj.findService m = proj0.findService m) →
      ∀ res ch ds proj2 calls,
        scaleLoop p client scale names proj = (res, ch, ds, proj2, calls) →
        res = Except.ok () →
        ch = namesChanged scale proj0 names ∧ ds = namesDiff p.diff scale proj0 names := by
  intro names
  induction names with
  | nil =>
    intro _ proj proj0 hagree res ch ds proj2 calls h hres
    simp only [scaleLoop, namesChanged, namesDiff]
    simp only [scaleLoop] at h
    injection h with e1 h2
    injection h2 with e2 h3
    injection h3 with e3 h4
    exact ⟨e2.symm, e3.symm⟩
  | cons name rest ih =>
    intro hnd proj proj0 hagree res ch ds proj2 calls h hres
    have hag0 : proj.findService name = proj0.findService name := hagree name (by simp)
    rw [List.nodup_cons] at hnd
    obtain ⟨hnotin, hndr⟩ := hnd
    have hagrest : ∀ m ∈ rest, proj.findService m = proj0.findService m :=
      fun m hm => hagree m (List.mem_cons_of_mem _ hm)
    simp only [scaleLoop] at h
    simp only [namesChanged, namesDiff]
    cases hfind : proj0.findService name with
    | none =>
      simp only [hag0, hfind] at h
      simp only [hfind]
      exact ih hndr proj proj0 hagrest res ch ds proj2 calls h hres
    | some s =>
      have hsname : s.name = name := by
        have hsn := List.find?_some (by simpa [Project.findService] using hfind)
        rwa [beq_iff_eq] at hsn
      simp only [hag0, hfind] at h
      simp only [hfind]
      cases hlook : scaleLookup scale s.name with
      | none =>
        simp only [hlook] at h
        simp only [hlook]
        exact ih hndr proj proj0 hagrest res ch ds proj2 calls h hres
      | some n =>
        simp only [hlook] at h
        simp only [hlook]
        by_cases hlen : s.containers.length = n
        · simp only [hlen, bne_self_eq_false, Bool.false_eq_true, if_false] at h
          simp only [hlen, bne_self_eq_false, Bool.false_eq_true, if_false]
          rcases hrec : scaleLoop p client scale rest proj with
            ⟨res1, ch1, ds1, proj21, calls1⟩
          rw [hrec] at h
          injection h with e1 h2
          injection h2 with e2 h3
          injection h3 with e3 h4
          have hres1 : res1 = Except.ok () := e1.trans hres
          obtain ⟨hc, hd⟩ := ih hndr proj proj0 hagrest res1 ch1 ds1 proj21 calls1
            hrec hres1
          constructor
          · rw [← e2]
            exact hc
          · rw [← e3]
            exact congrArg (List.cons _) hd
        · have hbne : (s.containers.length != n) = true := by simp [hlen]
          simp only [hbne, if_true] at h
          simp only [hbne, if_true]
          cases hcm : p.check_mode with
          | true =>
            simp only [hcm, Bool.not_true, Bool.false_eq_true, if_false] at h
            rcases hrec : scaleLoop p client scale rest proj with
              ⟨res1, ch1, ds1, proj21, calls1⟩
            rw [hrec] at h
            injection h with e1 h2
            injection h2 with e2 h3
            injection h3 with e3 h4
            have hres1 : res1 = Except.ok () := e1.trans hres
            obtain ⟨hc, hd⟩ := ih hndr proj proj0 hagrest res1 ch1 ds1 proj21 calls1
              hrec hres1
            constructor
            · rw [← e2]
            · rw [← e3]
              exact congrArg (List.cons _) hd
          | false =>
            simp only [hcm, Bool.not_false, if_true] at h
            cases hexec : client.exec (RuntimeCall.scale s.name n) proj with
            | error e =>
              simp only [hexec] at h
              injection h with e1 h2
              rw [← e1] at hres
              simp at hres
            | ok proj1 =>
              simp only [hexec] at h
              rcases hrec : scaleLoop p client scale rest proj1 with
                ⟨res1, ch1, ds1, proj21, calls1⟩
              rw [hrec] at h
              injection h with e1 h2
              injection h2 with e2 h3
              injection h3 with e3 h4
              have hres1 : res1 = Except.ok () := e1.trans hres
              have hag1 : ∀ m ∈ rest, proj1.findService m = proj0.findService m := by
                intro m hm
                have hmne : m ≠ name := fun hEq => hnotin (hEq ▸ hm)
                have hmne2 : m ≠ s.name := by
                  rw [hsname]
                  exact hmne
                rw [hpres s.name n proj proj1 hexec m hmne2]
                exact hagrest m hm
              obtain ⟨hc, hd⟩ := ih hndr proj1 proj0 hag1 res1 ch1 ds1 proj21 calls1
                hrec hres1
              constructor
              · rw [← e2]
              · rw [← e3]
                exact congrArg (List.cons _) hd

theorem namesChanged_eq_any (scale : List (String × Nat)) (proj : Project) :
    ∀ (l : List Service), (∀ s ∈ l, proj.findService s.name = some s) →
      namesChanged scale proj (l.map (fun s => s.name)) = l.any (scaleNeeded scale) := by
  intro l
  induction l with
  | nil => intro _; simp [namesChanged]
  | cons a rest ih =>
    intro hself
    have ha := hself a (by simp)
    have hrest := ih (fun s hs => hself s (List.mem_cons_of_mem _ hs))
    simp only [List.map_cons, namesChanged, ha, List.any_cons]
    cases hlook : scaleLookup scale a.name with
    | none => simp [hlook, scaleNeeded, hrest]
    | some n =>
      by_cases hlen : a.containers.length = n
      · simp [hlook, scaleNeeded, hlen, hrest]
      · simp [hlook, scaleNeeded, hlen, hrest]

theorem namesDiff_mem (dflag : Bool) (scale : List (String × Nat)) (proj : Project) :
    ∀ (l : List Service), (∀ s ∈ l, proj.findService s.name = some s) →
      ∀ s ∈ l, ∀ n, scaleLookup scale s.name = some n → s.containers.length ≠ n →
        (s.name, ServiceDiff.scale
            (if dflag then some ((n : Int) - (s.containers.length : Int)) else none)) ∈
          namesDiff dflag scale proj (l.map (fun s => s.name)) := by
  intro l
  induction l with
  | nil => simp
  | cons a rest ih =>
    intro hself s hs n hlook hlen
    have ha := hself a (by simp)
    have hrest := fun s hs => hself s (List.mem_cons_of_mem _ hs)
    simp only [List.map_cons, namesDiff, ha]
    rcases List.mem_cons.mp hs with rfl | hmem
    · simp only [hlook]
      have hbne : (s.containers.length != n) = true := by simp [hlen]
      simp only [hbne, if_true]
      exact List.mem_cons_self _ _
    · cases hlooka : scaleLookup scale a.name with
      | none => simpa [hlooka] using ih hrest s hmem n hlook hlen
      | some m =>
        by_cases hlena : a.containers.length = m
        · simp only [hlooka, hlena, bne_self_eq_false, Bool.false_eq_true, if_false]
          exact List.mem_cons_of_mem _ (ih hrest s hmem n hlook hlen)
        · have hbnea : (a.containers.length != m) = true := by simp [hlena]
          simp only [hlooka, hbnea, if_true]
          exact List.mem_cons_of_mem _ (ih hrest s hmem n hlook hlen)

theorem cmd_scale_ok_pure (p : Params) (client : Client) (proj : Project)
    (hnodup : (proj.services.map (fun s => s.name)).Nodup)
    (hpres : scalePreservesOthers client) :
    ∀ out proj2 calls, cmd_scale p client proj = (Except.ok out, proj2, calls) →
      out = ⟨namesChanged p.scale proj (proj.services.map (fun s => s.name)),
             namesDiff p.diff p.scale proj (proj.services.map (fun s => s.name))⟩ := by
  intro out proj2 calls h
  simp only [cmd_scale] at h
  rcases hloop : scaleLoop p client p.scale (proj.services.map (fun s => s.name)) proj
    with ⟨res1, ch1, ds1, proj21, calls1⟩
  rw [hloop] at h
  cases res1 with
  | error e =>
    have h1 := congrArg Prod.fst h
    simp at h1
  | ok u =>
    have h1 := congrArg Prod.fst h
    simp only [Except.ok.injEq] at h1
    obtain ⟨hc, hd⟩ := scaleLoop_ok_pure p client p.scale hpres
      (proj.services.map (fun s => s.name)) hnodup proj proj (fun m _ => rfl)
      (Except.ok u) ch1 ds1 proj21 calls1 hloop rfl
    rw [← h1, hc, hd]

/-- C7: under the runtime contract that a scale call leaves other
services untouched, and with distinct service names, the scale operation
is changed iff some service named in the scale map has a container count
different from its target; its diff records the signed delta target
minus count; and every runtime call it issues is a scale call for a
service named in the scale map. -/
theorem cmd_scale_spec (p : Params) (client : Client) (proj : Project)
    (hnodup : (proj.services.map (fun s => s.name)).Nodup)
    (hpres : scalePreservesOthers client) :
    (∀ out proj2 calls, cmd_scale p client proj = (Except.ok out, proj2, calls) →
       ((out.changed = true ↔ ∃ s, s ∈ proj.services ∧ ∃ n,
           scaleLookup p.scale s.name = some n ∧ s.containers.length ≠ n)
        ∧ (p.diff = true → ∀ s ∈ proj.services, ∀ n,
             scaleLookup p.scale s.name = some n → s.containers.length ≠ n →
             (s.name, ServiceDiff.scale (some ((n : Int) - (s.containers.length : Int))))
               ∈ out.diff)))
    ∧ (∀ res proj2 calls, cmd_scale p client proj = (res, proj2, calls) →
        ∀ c ∈ calls, ∃ nm n, c = RuntimeCall.scale nm n ∧
          scaleLookup p.scale nm = some n) := by
  have hself := findService_self proj hnodup
  constructor
  · intro out proj2 calls h
    have hout := cmd_scale_ok_pure p client proj hnodup hpres out proj2 calls h
    rw [hout]
    constructor
    · rw [CmdOut.changed]
      rw [namesChanged_eq_any p.scale proj proj.services hself, List.any_eq_true]
      constructor
      · rintro ⟨s, hs, hneed⟩
        exact ⟨s, hs, (scaleNeeded_iff _ _).mp hneed⟩
      · rintro ⟨s, hs, hex⟩
        exact ⟨s, hs, (scaleNeeded_iff _ _).mpr hex⟩
    · intro hdiff s hs n hlook hlen
      have hmem := namesDiff_mem p.diff p.scale proj proj.services hself s hs n
        hlook hlen
      simp only [hdiff] at hmem ⊢
      simpa using hmem
  · intro res proj2 calls h
    simp only [cmd_scale] at h
    rcases hloop : scaleLoop p client p.scale (proj.services.map (fun s => s.name)) proj
      with ⟨res1, ch1, ds1, proj21, calls1⟩
    rw [hloop] at h
    cases res1 with
    | error e =>
      injection h with e1 h2
      injection h2 with e2 e3
      intro c hc
      rw [← e3] at hc
      exact scaleLoop_calls p client p.scale _ proj (Except.error e) ch1 ds1
        proj21 calls1 hloop c hc
    | ok u =>
      injection h with e1 h2
      injection h2 with e2 e3
      intro c hc
      rw [← e3] at hc
      exact scaleLoop_calls p client p.scale _ proj (Except.ok u) ch1 ds1
        proj21 calls1 hloop c hc

theorem clientOk_preserves : scalePreservesOthers clientOk := by
  intro name n proj proj2 hexec m hmne
  simp only [clientOk] at hexec
  injection hexec with h
  rw [← h]

/-- Parameters scaling the web service to two containers. -/
def pScale : Params := { pBase with scale := [("web", 2)] }

theorem cmd_scale_spec_witness :
    (⟨true, [("web", ServiceDiff.scale (some 1))]⟩ : CmdOut).changed = true ↔
      ∃ s, s ∈ projConv.services ∧ ∃ n,
        scaleLookup pScale.scale s.name = some n ∧ s.containers.length ≠ n :=
  ((cmd_scale_spec pScale clientOk projConv (by decide) clientOk_preserves).1
    ⟨true, [("web", ServiceDiff.scale (some 1))]⟩ projConv
    [RuntimeCall.scale "web" 2] rfl).1

/-- A post-up modifier never resurrects a failed run: the fatal error
passes through unchanged. -/
theorem applyMod_error (cond : Bool) (e : String) (pr : Project)
    (cs : List RuntimeCall) (frag : Project → CmdResult) :
    applyMod cond (Except.error e, pr, cs) frag = (Except.error e, pr, cs) := by
  cases cond <;> simp [applyMod]

theorem scaleLoop_skip (p : Params) (client : Client) (scale : List (String × Nat)) :
    ∀ (names : List String) (proj : Project),
      (∀ name ∈ names, ∀ s, proj.findService name = some s →
         scaleLookup scale s.name = none) →
      scaleLoop p client scale names proj = (Except.ok (), false, [], proj, []) := by
  intro names
  induction names with
  | nil => intro proj _; simp [scaleLoop]
  | cons name rest ih =>
    intro proj hskip
    simp only [scaleLoop]
    cases hfind : proj.findService name with
    | none => exact ih proj (fun m hm s hs => hskip m (List.mem_cons_of_mem _ hm) s hs)
    | some s =>
      have hnone : scaleLookup scale s.name = none := hskip name (by simp) s hfind
      simp only [hnone]
      exact ih proj (fun m hm s2 hs2 => hskip m (List.mem_cons_of_mem _ hm) s2 hs2)

/-- Parameters whose scale map names only the nonexistent ghost service. -/
def pGhost : Params := { pBase with scale := [("ghost", 3)] }

/-- C8 counterexample: the scale map names the service ghost, which is
absent from the graph, yet the scale operation succeeds with changed
false, an empty diff and no runtime call — no error of any kind is
raised, contradicting the claimed UnknownServiceError failure. -/
theorem cmd_scale_unknown_counterexample :
    projConv.findService "ghost" = none
    ∧ scaleLookup pGhost.scale "ghost" = some 3
    ∧ cmd_scale pGhost clientOk projConv = (Except.ok ⟨false, []⟩, projConv, []) :=
  ⟨rfl, rfl, rfl⟩

/-- C8 amended: a scale entry naming a service absent from the service
graph is silently ignored; in particular when every scale key names an
absent service the operation succeeds with changed false, empty diff, no
runtime call and an unchanged project. -/
theorem cmd_scale_unknown_ignored (p : Params) (client : Client) (proj : Project)
    (hunknown : ∀ kv ∈ p.scale, proj.findService kv.1 = none) :
    cmd_scale p client proj = (Except.ok ⟨false, []⟩, proj, []) := by
  have hskip : ∀ name ∈ proj.services.map (fun s => s.name), ∀ s,
      proj.findService name = some s → scaleLookup p.scale s.name = none := by
    intro name hname s hs
    cases hq : scaleLookup p.scale s.name with
    | none => rfl
    | some n =>
      exfalso
      have hsname : s.name = name := by
        have hsn := List.find?_some (by simpa [Project.findService] using hs)
        rwa [beq_iff_eq] at hsn
      simp only [scaleLookup, Option.map_eq_some'] at hq
      obtain ⟨kv, hkv, hkv2⟩ := hq
      have hkvmem : kv ∈ p.scale := List.mem_of_find?_eq_some hkv
      have hkv1 : kv.1 = s.name := by
        have hp := List.find?_some hkv
        rwa [beq_iff_eq] at hp
      have hnone := hunknown kv hkvmem
      rw [hkv1, hsname] at hnone
      rw [hnone] at hs
      simp at hs
  simp only [cmd_scale,
    scaleLoop_skip p client p.scale (proj.services.map (fun s => s.name)) proj hskip]

theorem cmd_scale_unknown_ignored_witness :
    cmd_scale pGhost clientOk projConv = (Except.ok ⟨false, []⟩, projConv, []) :=
  cmd_scale_unknown_ignored pGhost clientOk projConv (by decide)

theorem scaleLoop_error (p : Params) (client : Client) (scale : List (String × Nat)) :
    ∀ (names : List String) (proj : Project) ch ds proj2 calls msg,
      scaleLoop p client scale names proj = (Except.error msg, ch, ds, proj2, calls) →
      ∃ nm n er pre, msg = "Error scaling " ++ nm ++ " - " ++ er ∧
        scaleLookup scale nm = some n ∧ calls = pre ++ [RuntimeCall.scale nm n] := by
  intro names
  induction names with
  | nil =>
    intro proj ch ds proj2 calls msg h
    simp only [scaleLoop] at h
    injection h with e1 h2
    simp at e1
  | cons name rest ih =>
    intro proj ch ds proj2 calls msg h
    simp only [scaleLoop] at h
    cases hfind : proj.findService name with
    | none =>
      simp only [hfind] at h
      exact ih proj ch ds proj2 calls msg h
    | some s =>
      simp only [hfind] at h
      cases hlook : scaleLookup scale s.name with
      | none =>
        simp only [hlook] at h
        exact ih proj ch ds proj2 calls msg h
      | some n =>
        simp only [hlook] at h
        by_cases hlen : s.containers.length = n
        · simp only [hlen, bne_self_eq_false, Bool.false_eq_true, if_false] at h
          rcases hrec : scaleLoop p client scale rest proj with
            ⟨res1, ch1, ds1, proj21, calls1⟩
          rw [hrec] at h
          injection h with e1 h2
          injection h2 with e2 h3
          injection h3 with e3 h4
          injection h4 with e4 e5
          have e1b : res1 = Except.error msg := e1
          rw [e1b] at hrec
          obtain ⟨nm, n2, er, pre, hmsg, hlk, hcalls⟩ :=
            ih proj ch1 ds1 proj21 calls1 msg hrec
          refine ⟨nm, n2, er, pre, hmsg, hlk, ?_⟩
          rw [← e5]
          exact hcalls
        · have hbne : (s.containers.length != n) = true := by simp [hlen]
          simp only [hbne, if_true] at h
          cases hcm : p.check_mode with
          | true =>
            simp only [hcm, Bool.not_true, Bool.false_eq_true, if_false] at h
            rcases hrec : scaleLoop p client scale rest proj with
              ⟨res1, ch1, ds1, proj21, calls1⟩
            rw [hrec] at h
            injection h with e1 h2
            injection h2 with e2 h3
            injection h3 with e3 h4
            injection h4 with e4 e5
            have e1b : res1 = Except.error msg := e1
            rw [e1b] at hrec
            obtain ⟨nm, n2, er, pre, hmsg, hlk, hcalls⟩ :=
              ih proj ch1 ds1 proj21 calls1 msg hrec
            refine ⟨nm, n2, er, pre, hmsg, hlk, ?_⟩
            rw [← e5]
            exact hcalls
          | false =>
            simp only [hcm, Bool.not_false, if_true] at h
            cases hexec : client.exec (RuntimeCall.scale s.name n) proj with
            | error e =>
              simp only [hexec] at h
              injection h with e1 h2
              injection h2 with e2 h3
              injection h3 with e3 h4
              injection h4 with e4 e5
              injection e1 with hmsg
              refine ⟨s.name, n, e, [], hmsg.symm, hlook, ?_⟩
              rw [← e5]
              simp
            | ok proj1 =>
              simp only [hexec] at h
              rcases hrec : scaleLoop p client scale rest proj1 with
                ⟨res1, ch1, ds1, proj21, calls1⟩
              rw [hrec] at h
              injection h with e1 h2
              injection h2 with e2 h3
              injection h3 with e3 h4
              injection h4 with e4 e5
              have e1b : res1 = Except.error msg := e1
              rw [e1b] at hrec
              obtain ⟨nm, n2, er, pre, hmsg, hlk, hcalls⟩ :=
                ih proj1 ch1 ds1 proj21 calls1 msg hrec
              refine ⟨nm, n2, er, RuntimeCall.scale s.name n :: pre, hmsg, hlk, ?_⟩
              rw [← e5]
              exact congrArg (List.cons _) hcalls

/-- Parameters with every post-up modifier requested, used to show a
failed up call aborts before any modifier runs. -/
def pC9 : Params :=
  { pBase with stopped := true, restarted := true, scale := [("web", 2)] }

/-- C9 counterexample: an up failure on the single-service project (its
only service is web) surfaces as the fatal message built from the
project name; the service name web does not occur anywhere in the
message, refuting that every runtime failure names the offending
service. -/
theorem runtime_failure_counterexample :
    (cmd_up pC9 clientFailAll projWebNone).1 =
      Except.error "Error bring flask up - boom"
    ∧ projWebNone.services.map (fun s => s.name) = ["web"]
    ∧ substr "web" "Error bring flask up - boom" = false :=
  ⟨rfl, rfl, rfl⟩

/-- C9 corrected: any runtime-call failure is fatal and aborts the
invocation at once — the failed call is the last call issued, later
services and later operations (including all post-up modifiers) are
never reached, and nothing is retried.  The message names the offending
service only for scale failures; up, down, stop and restart failures
are reported against the project name with the underlying cause
appended, not a service name. -/
theorem runtime_failure_aborts (p : Params) (client : Client) (proj : Project)
    (e : String) (hcm : p.check_mode = false) (hch : upPlanChanged p proj = true)
    (hfail : client.exec (upCall p) proj = Except.error e) :
    cmd_up p client proj =
      (Except.error ("Error bring " ++ proj.name ++ " up - " ++ e), proj, [upCall p])
    ∧ (∀ proj2 calls msg, cmd_scale p client proj = (Except.error msg, proj2, calls) →
         ∃ nm n er pre, msg = "Error scaling " ++ nm ++ " - " ++ er ∧
           scaleLookup p.scale nm = some n ∧
           calls = pre ++ [RuntimeCall.scale nm n])
    ∧ (∀ proj2 calls msg,
         cmd_stop p client proj p.services = (Except.error msg, proj2, calls) →
         ∃ er, msg = "Error stopping services for " ++ proj.name ++ " - " ++ er ∧
           calls = [RuntimeCall.stop p.services])
    ∧ (∀ proj2 calls msg,
         cmd_restart p client proj p.services = (Except.error msg, proj2, calls) →
         ∃ er, msg = "Error restarting services for " ++ proj.name ++ " - " ++ er ∧
           calls = [RuntimeCall.restart p.services])
    ∧ (∀ proj2 calls msg,
         cmd_down p client proj = (Except.error msg, proj2, calls) →
         ∃ er, msg = "Error bringing " ++ proj.name ++ " down - " ++ er ∧
           calls = [RuntimeCall.down (image_type_from_opt p.remove_images)
                      p.remove_volumes p.remove_orphans]) := by
  refine ⟨?_, ?_, ?_, ?_, ?_⟩
  · simp [cmd_up, hcm, hch, hfail, applyMod_error]
  · intro proj2 calls msg h
    simp only [cmd_scale] at h
    rcases hloop : scaleLoop p client p.scale (proj.services.map (fun s => s.name)) proj
      with ⟨res1, ch1, ds1, proj21, calls1⟩
    rw [hloop] at h
    cases res1 with
    | ok u =>
      injection h with h1 h2
      exact Except.noConfusion h1
    | error m =>
      injection h with h1 h2
      injection h2 with h3 h4
      injection h1 with hm
      rw [hm] at hloop
      obtain ⟨nm, n, er, pre, hmsg, hlk, hcalls⟩ :=
        scaleLoop_error p client p.scale _ proj ch1 ds1 proj21 calls1 msg hloop
      refine ⟨nm, n, er, pre, hmsg, hlk, ?_⟩
      rw [← h4]
      exact hcalls
  · intro proj2 calls msg h
    simp only [cmd_stop] at h
    split at h
    · split at h
      · injection h with h1 h2
        exact Except.noConfusion h1
      · injection h with h1 h2
        injection h2 with h3 h4
        injection h1 with hm
        rename_i er hexec
        refine ⟨er, hm.symm, ?_⟩
        rw [← h4]
    · injection h with h1 h2
      exact Except.noConfusion h1
  · intro proj2 calls msg h
    simp only [cmd_restart] at h
    split at h
    · split at h
      · injection h with h1 h2
        exact Except.noConfusion h1
      · injection h with h1 h2
        injection h2 with h3 h4
        injection h1 with hm
        rename_i er hexec
        refine ⟨er, hm.symm, ?_⟩
        rw [← h4]
    · injection h with h1 h2
      exact Except.noConfusion h1
  · intro proj2 calls msg h
    simp only [cmd_down] at h
    split at h
    · split at h
      · injection h with h1 h2
        exact Except.noConfusion h1
      · injection h with h1 h2
        injection h2 with h3 h4
        injection h1 with hm
        rename_i er hexec
        refine ⟨er, hm.symm, ?_⟩
        rw [← h4]
    · injection h with h1 h2
      exact Except.noConfusion h1

theorem runtime_failure_aborts_witness :
    cmd_up pC9 clientFailAll projWebNone =
      (Except.error ("Error bring " ++ projWebNone.name ++ " up - " ++ "boom"),
       projWebNone, [upCall pC9]) :=
  (runtime_failure_aborts pC9 clientFailAll projWebNone "boom" rfl rfl rfl).1

/-- Check-mode parameters with only the stopped modifier. -/
def pC10 : Params := { pBase with check_mode := true, stopped := true }

/-- C10: post-up modifiers merge their fragment into the up result by
wholesale replacement of the changed and diff keys, so the overall
changed flag can be false although the up phase reported changed true:
in check mode with the stopped modifier, a project whose only service
has no containers plans a create (up changed true) while the stop
fragment finds no running container and overwrites changed with false. -/
theorem modifier_update_replaces :
    (∀ b f : CmdOut, resultUpdate b f = f)
    ∧ upPlanChanged pC10 projWebNone = true
    ∧ cmd_up pC10 clientOk projWebNone =
        (Except.ok ⟨false, [("web", ServiceDiff.stop [])]⟩, projWebNone, []) :=
  ⟨fun _ _ => rfl, rfl, rfl⟩
